import Mathlib

/-!
Verification of the lane-detection control program (`main.py`).

The program runs a perception loop (camera frame → color filter → edge map →
probabilistic Hough transform → mean segment angle → serial angle command)
and, on a second thread, a keyboard listener that deposits operator commands
into shared global variables (`key_input_flag`, `command`, `paused`).

This file is a shallow embedding of that program:
  * the image pipeline up to `cv2.HoughLinesP` is an external collaborator
    (OpenCV); a main-loop iteration is therefore parametrised by the Hough
    result `lines : Option (List Seg)` it would produce for that frame;
  * `numpy.arctan2` and `numpy.degrees` are embedded over the reals;
  * serial-port writes are modelled as the byte strings written, collected
    into a trace; camera/serial teardown calls are modelled as trace actions;
  * the two threads share the three global variables; interleaving is
    modelled at the granularity of one listener input line or one main-loop
    iteration (each step reads and writes a consistent snapshot).
-/

namespace LaneDetect

open Real

/-- One detected line segment `(x1, y1, x2, y2)` as returned by
`cv2.HoughLinesP` (integer pixel coordinates). -/
structure Seg where
  x1 : Int
  y1 : Int
  x2 : Int
  y2 : Int
deriving DecidableEq

/-- `numpy.arctan2 y x`: the angle of the point `(x, y)` in `(-π, π]`.
(The inputs here are integer coordinate differences, so the IEEE signed-zero
cases of `arctan2` do not arise.) -/
noncomputable def arctan2 (y x : ℝ) : ℝ :=
  if 0 < x then arctan (y / x)
  else if x < 0 then
    if 0 ≤ y then arctan (y / x) + π
    else arctan (y / x) - π
  else
    if 0 < y then π / 2
    else if y < 0 then -(π / 2)
    else 0

/-- The orientation `np.arctan2(y2 - y1, x2 - x1)` of one segment, in
radians (image coordinates, `y` grows downward). -/
noncomputable def segAngle (l : Seg) : ℝ :=
  arctan2 ((l.y2 - l.y1 : ℤ) : ℝ) ((l.x2 - l.x1 : ℤ) : ℝ)

/-- `calculate_angle(lines)` from `main.py`: `0` when `lines` is `None` or
empty; otherwise the arithmetic mean of the segment orientations, converted
to degrees by `np.degrees` (multiplication by `180 / π`). The accumulator
loop `angle_sum += ...` is a left fold. -/
noncomputable def calculate_angle (lines : Option (List Seg)) : ℝ :=
  match lines with
  | none => 0
  | some ls =>
    if ls.length = 0 then 0
    else
      let angle_sum := ls.foldl (fun acc l => acc + segAngle l) 0
      let angle_avg := angle_sum / (ls.length : ℝ)
      angle_avg * 180 / π

/-- Python `int()` on a real value: truncation toward zero. -/
noncomputable def pyInt (x : ℝ) : ℤ := if 0 ≤ x then ⌊x⌋ else ⌈x⌉

/-- `send_angle_to_arduino(angle)`: the byte string written by
`ser.write(f"A{int(angle)}\n".encode())`, as one atomic write. -/
noncomputable def send_angle_to_arduino (angle : ℝ) : String :=
  "A" ++ toString (pyInt angle) ++ "\n"

/-- `send_pause_resume_to_arduino()`: the byte string written by
`ser.write(b'p')`. -/
def send_pause_resume_to_arduino : String := "p"

/-- Python `str.strip()`: remove leading and trailing whitespace. -/
def pyStrip (s : String) : String :=
  ⟨((s.data.dropWhile Char.isWhitespace).reverse.dropWhile Char.isWhitespace).reverse⟩

/-- Python `str.lower()`: lower-case every character. -/
def pyLower (s : String) : String := ⟨s.data.map Char.toLower⟩

/-- The three shared global variables of `main.py`. -/
structure SysState where
  key_input_flag : Bool
  command : String
  paused : Bool
deriving DecidableEq

/-- Initial values of the globals: `key_input_flag = False`, `command = ''`,
`paused = False` (mode Autonomous). -/
def initState : SysState := ⟨false, "", false⟩

/-- The manual drive command tokens of `handle_key_input`. -/
def drive_commands : List String := ["w", "s", "a", "d", "x", "+", "-"]

/-- One pass of the `while True` body of `handle_key_input` on one input
line: returns the updated globals, the byte strings the listener itself
writes to the serial port, and whether the listener loop breaks.
  * `'q'`: set the flag, store `'q'`, break;
  * a drive token: set the flag, store the token;
  * `'p'`: flip `paused`, set the flag, write `'p'` via
    `send_pause_resume_to_arduino()` — the stored `command` is left as is;
  * anything else: no effect. -/
def handle_key_input_step (s : SysState) (user_input : String) :
    SysState × List String × Bool :=
  let u := pyLower (pyStrip user_input)
  if u = "q" then
    ({ s with key_input_flag := true, command := "q" }, [], true)
  else if u ∈ drive_commands then
    ({ s with key_input_flag := true, command := u }, [], false)
  else if u = "p" then
    ({ s with paused := !s.paused, key_input_flag := true },
      [send_pause_resume_to_arduino], false)
  else
    (s, [], false)

/-- The pending-command poll at the top of the main loop
(`if key_input_flag: ...` in `main.py`): `none` means the loop breaks
(command `'q'`); otherwise the updated state and the byte strings written.
The `command == 'p'` branch is a `pass`; any other command is written raw
to the serial port. The flag is cleared on every non-break path. -/
def consume_pending (s : SysState) : Option SysState × List String :=
  if s.key_input_flag then
    if s.command = "q" then (none, [])
    else if s.command = "p" then (some { s with key_input_flag := false }, [])
    else (some { s with key_input_flag := false }, [s.command])
  else (some s, [])

/-- One iteration of the main `while True` loop. `lines` is the Hough
result the OpenCV pipeline would produce for this iteration's frame
(`none` models `HoughLinesP` returning `None`); `gui_q` models the
`cv2.waitKey(1)` check reading `'q'`. Returns `none` when the loop breaks,
else the next state, paired with the byte strings written this iteration:
  1. poll the pending command (possibly breaking);
  2. if `paused`, `continue` — the whole perception path is skipped;
  3. otherwise capture/process the frame, compute the angle and send it. -/
noncomputable def main_iter (s : SysState) (lines : Option (List Seg))
    (gui_q : Bool) : Option SysState × List String :=
  match consume_pending s with
  | (none, w) => (none, w)
  | (some s1, w) =>
    if s1.paused then (some s1, w)
    else
      let w2 := w ++ [send_angle_to_arduino (calculate_angle lines)]
      if gui_q then (none, w2) else (some s1, w2)

/-- Is a byte string an angle frame of the wire protocol (first byte `'A'`)? -/
def is_angle_frame (m : String) : Prop := m.data.head? = some 'A'

instance (m : String) : Decidable (is_angle_frame m) := by
  unfold is_angle_frame
  infer_instance

/-- The values the shared variable `command` can ever hold: its initial
value `''`, the drive tokens, and `'q'` (the listener never stores `'p'`). -/
def valid_commands : List String := ["", "w", "s", "a", "d", "x", "+", "-", "q"]

/-- Trace actions of a whole program run: serial writes plus the teardown
calls of the `finally` block. -/
inductive Act where
  | write (bytes : String)
  | camStop
  | camClose
  | destroyWindows
  | serClose
deriving DecidableEq

/-- One scheduled step of the two-thread system: the listener consumes one
input line, or the main loop runs one iteration (with that iteration's
Hough result and `cv2.waitKey` outcome). -/
inductive Step where
  | key (user_input : String)
  | iter (lines : Option (List Seg)) (gui_q : Bool)

/-- Run the main loop against a schedule of steps, collecting every serial
write. The schedule ending models the loop being cut short (e.g. by
`KeyboardInterrupt`); a `main_iter` break (`'q'` or the GUI key) stops the
loop there and discards the rest of the schedule. -/
noncomputable def runLoop : SysState → List Step → List String
  | _, [] => []
  | s, Step.key u :: rest =>
    (handle_key_input_step s u).2.1 ++ runLoop (handle_key_input_step s u).1 rest
  | s, Step.iter lines gui :: rest =>
    match main_iter s lines gui with
    | (none, w) => w
    | (some s1, w) => w ++ runLoop s1 rest

/-- The `finally` block of `main.py`: `picam2.stop()`, `picam2.close()`,
`cv2.destroyAllWindows()`, `ser.close()`, run once on every exit path. -/
def cleanup_trace : List Act :=
  [Act.camStop, Act.camClose, Act.destroyWindows, Act.serClose]

/-- The action trace of a whole run: the loop's serial writes (however the
loop ends: quit, GUI key, schedule cut short by an interrupt), then the
`finally` block exactly once. -/
noncomputable def programTrace (steps : List Step) : List Act :=
  (runLoop initState steps).map Act.write ++ cleanup_trace

/-- Rendition of the spec's words for the Line Extractor (§4.2), for
comparison with `calculate_angle`: the unweighted arithmetic mean of the
segment orientations, converted to degrees. -/
noncomputable def spec_mean_angle_deg (ls : List Seg) : ℝ :=
  ((ls.map segAngle).sum / (ls.length : ℝ)) * 180 / π

/-- Rendition of the spec's words for `sendAngle` (§4.3), for comparison
with `pyInt`: truncation toward zero, i.e. the floor of the magnitude with
the sign kept. -/
noncomputable def spec_trunc_toward_zero (x : ℝ) : ℤ :=
  if x < 0 then -⌊|x|⌋ else ⌊|x|⌋

/-- The listener step applied to the toggle input `'p'`. -/
def toggle_step (s : SysState) : SysState := (handle_key_input_step s "p").1

/-- Claim C5: with zero detected segments — `lines` absent (`None`) or the
empty list — `calculate_angle` returns exactly `0` degrees, not an error. -/
theorem zero_segments_give_zero_angle :
    calculate_angle none = 0 ∧ calculate_angle (some []) = 0 := by
  constructor <;> simp [calculate_angle]

/-- Claim C8 (with C8's general part stated against
`spec_trunc_toward_zero`): `send_angle_to_arduino` truncates its argument
toward zero and writes the single byte string `A<int>\n`; at `37.9` the
bytes written are exactly `A37\n`. -/
theorem send_angle_truncates_toward_zero :
    (∀ x : ℝ, pyInt x = spec_trunc_toward_zero x ∧
      send_angle_to_arduino x = "A" ++ toString (spec_trunc_toward_zero x) ++ "\n") ∧
    send_angle_to_arduino (37.9 : ℝ) = "A37\n" := by
  have key : ∀ x : ℝ, pyInt x = spec_trunc_toward_zero x := by
    intro x
    unfold pyInt spec_trunc_toward_zero
    rcases lt_or_le x 0 with hx | hx
    · rw [if_neg (not_le.mpr hx), if_pos hx, abs_of_neg hx, Int.floor_neg, neg_neg]
    · rw [if_pos hx, if_neg (not_lt.mpr hx), abs_of_nonneg hx]
  refine ⟨fun x => ⟨key x, by rw [send_angle_to_arduino, key x]⟩, ?_⟩
  have h379 : pyInt (37.9 : ℝ) = 37 := by
    unfold pyInt
    rw [if_pos (by norm_num), Int.floor_eq_iff]
    norm_num
  rw [send_angle_to_arduino, h379]
  rfl

/-- Claim C3: the pending-command slot is a single value; a second deposit
before the next poll overwrites the first, so the state after two drive
deposits equals the state after just the second, and the next poll writes
only the second command. -/
theorem pending_slot_last_write_wins (s : SysState) (c1 c2 : String)
    (h1 : c1 ∈ drive_commands) (h2 : c2 ∈ drive_commands) :
    (handle_key_input_step (handle_key_input_step s c1).1 c2).1 =
      (handle_key_input_step s c2).1 ∧
    (consume_pending (handle_key_input_step (handle_key_input_step s c1).1 c2).1).2 =
      [c2] := by
  fin_cases h1 <;> fin_cases h2 <;> exact ⟨rfl, rfl⟩

/-- Witness for C3 at a concrete state and the deposits `'w'` then `'s'`. -/
theorem pending_slot_last_write_wins_witness :
    (handle_key_input_step (handle_key_input_step initState "w").1 "s").1 =
      (handle_key_input_step initState "s").1 ∧
    (consume_pending (handle_key_input_step (handle_key_input_step initState "w").1 "s").1).2 =
      ["s"] :=
  pending_slot_last_write_wins initState "w" "s" (by decide) (by decide)

/-- Counterexample to claim C4: on the toggle input `'p'` the Input
Listener itself writes the byte `'p'` to the channel (a nonempty write
list), and the main loop's subsequent consumption neither flips the mode
(`paused` stays `true`) nor writes any toggle byte. -/
theorem toggle_sent_by_listener_counterexample :
    (handle_key_input_step initState "p").2.1 = ["p"] ∧
    (handle_key_input_step initState "p").2.1 ≠ [] ∧
    (consume_pending (handle_key_input_step initState "p").1).1 =
      some ⟨false, "", true⟩ ∧
    "p" ∉ (consume_pending (handle_key_input_step initState "p").1).2 := by
  refine ⟨rfl, by decide, rfl, by decide⟩

/-- Claim C4 as amended: the mode flip and the single `'p'` channel write
happen in the Input Listener thread at the moment the toggle input is read
(the stored command is not touched), while the main loop's pending-command
consumption never flips the mode and — since the listener never stores
`'p'` in the slot — never emits the toggle byte. -/
theorem toggle_flip_and_send_in_listener (s t : SysState) (u : String) :
    ((handle_key_input_step s "p").1.paused = !s.paused ∧
      (handle_key_input_step s "p").2.1 = [send_pause_resume_to_arduino] ∧
      (handle_key_input_step s "p").1.command = s.command) ∧
    (s.command ≠ "p" → (handle_key_input_step s u).1.command ≠ "p") ∧
    (∀ t1, (consume_pending t).1 = some t1 → t1.paused = t.paused) ∧
    (t.command ≠ "p" → "p" ∉ (consume_pending t).2) := by
  refine ⟨⟨rfl, rfl, rfl⟩, ?_, ?_, ?_⟩
  · intro hs
    unfold handle_key_input_step
    generalize pyLower (pyStrip u) = v
    by_cases hq : v = "q"
    · simp [hq]
    · by_cases hd : v ∈ drive_commands
      · have hv : v ≠ "p" := by fin_cases hd <;> decide
        simp [if_neg hq, if_pos hd, hv]
      · by_cases hp : v = "p"
        · simp [if_neg hq, if_neg hd, if_pos hp, hs]
        · simp [if_neg hq, if_neg hd, if_neg hp, hs]
  · intro t1 h
    unfold consume_pending at h
    split_ifs at h <;> simp_all <;> rw [← h]
  · intro ht
    unfold consume_pending
    split_ifs <;> simp_all
    exact fun h => ht h.symm

/-- Witness for the amended C4 at concrete states and input. -/
theorem toggle_flip_and_send_in_listener_witness :
    (handle_key_input_step initState "w").1.command ≠ "p" ∧
    "p" ∉ (consume_pending initState).2 :=
  ⟨(toggle_flip_and_send_in_listener initState initState "w").2.1 (by decide),
    (toggle_flip_and_send_in_listener initState initState "w").2.2.2 (by decide)⟩

/-- Claim C10: the `'p'` input raises `key_input_flag` without replacing
the stored `command`; if the slot last held a drive character `c`, the main
loop's next poll re-sends the stale byte `c` to the channel. -/
theorem stale_drive_command_resent (s : SysState) (c : String)
    (lines : Option (List Seg)) (gui : Bool)
    (hc : c ∈ drive_commands) (hs : s.command = c) :
    (handle_key_input_step s "p").1.key_input_flag = true ∧
    (handle_key_input_step s "p").1.command = c ∧
    c ∈ (main_iter (handle_key_input_step s "p").1 lines gui).2 := by
  obtain ⟨f, cmd, p⟩ := s
  change cmd = c at hs
  subst hs
  refine ⟨rfl, rfl, ?_⟩
  have hq : cmd ≠ "q" := by fin_cases hc <;> decide
  have hp2 : cmd ≠ "p" := by fin_cases hc <;> decide
  have hstep : (handle_key_input_step ⟨f, cmd, p⟩ "p").1 = ⟨true, cmd, !p⟩ := rfl
  rw [hstep]
  cases p <;> cases gui <;> simp [main_iter, consume_pending, hq, hp2]

/-- Witness for C10: after `'w'` is deposited and consumed would be stale,
a following `'p'` makes the next poll re-send `'w'`. -/
theorem stale_drive_command_resent_witness :
    (handle_key_input_step ⟨false, "w", false⟩ "p").1.key_input_flag = true ∧
    (handle_key_input_step ⟨false, "w", false⟩ "p").1.command = "w" ∧
    "w" ∈ (main_iter (handle_key_input_step ⟨false, "w", false⟩ "p").1 none false).2 :=
  stale_drive_command_resent ⟨false, "w", false⟩ "w" none false (by decide) rfl

/-- The pending-command poll never changes `paused`. -/
theorem consume_pending_preserves_paused (s s1 : SysState)
    (h : (consume_pending s).1 = some s1) : s1.paused = s.paused := by
  unfold consume_pending at h
  split_ifs at h <;> simp_all <;> rw [← h]

/-- Claim C1: in an iteration that starts with `paused = true`
(ManualPaused), the whole perception path is skipped — the iteration's
outcome does not depend on the frame's Hough result or on the GUI key —
and none of the bytes written that iteration is an `A...` angle frame.
(The hypothesis `s.command ∈ valid_commands` is the reachable-state
invariant on the shared slot; see `command_stays_valid`.) -/
theorem paused_skips_perception (s : SysState) (lines lines' : Option (List Seg))
    (gui gui' : Bool) (hp : s.paused = true) (hc : s.command ∈ valid_commands) :
    main_iter s lines gui = main_iter s lines' gui' ∧
    ∀ m ∈ (main_iter s lines gui).2, ¬ is_angle_frame m := by
  rcases hcp : consume_pending s with ⟨o, w⟩
  have hiter : ∀ l g, main_iter s l g = (o, w) := by
    intro l g
    unfold main_iter
    rw [hcp]
    cases o with
    | none => rfl
    | some s1 =>
      have h1 : s1.paused = true := by
        rw [consume_pending_preserves_paused s s1 (by rw [hcp]), hp]
      simp [h1]
  refine ⟨(hiter lines gui).trans (hiter lines' gui').symm, ?_⟩
  rw [hiter lines gui]
  have hw : w = [] ∨ w = [s.command] := by
    unfold consume_pending at hcp
    split_ifs at hcp <;> simp_all
  rcases hw with hw | hw <;> subst hw
  · simp
  · intro m hm
    rw [List.mem_singleton] at hm
    subst hm
    revert hc
    generalize s.command = c
    intro hc
    fin_cases hc <;> decide

/-- Witness for C1 in ManualPaused with a pending drive command and two
different frame contents. -/
theorem paused_skips_perception_witness :
    main_iter ⟨true, "w", true⟩ none false =
      main_iter ⟨true, "w", true⟩ (some [⟨0, 0, 10, 10⟩]) true ∧
    ∀ m ∈ (main_iter ⟨true, "w", true⟩ none false).2, ¬ is_angle_frame m :=
  paused_skips_perception ⟨true, "w", true⟩ none (some [⟨0, 0, 10, 10⟩])
    false true rfl (by decide)

/-- The shared `command` slot only ever holds a value from
`valid_commands`: the invariant holds initially and is preserved by every
listener step and every main-loop iteration. -/
theorem command_stays_valid :
    initState.command ∈ valid_commands ∧
    (∀ s u, s.command ∈ valid_commands →
      (handle_key_input_step s u).1.command ∈ valid_commands) ∧
    (∀ s lines gui s1, s.command ∈ valid_commands →
      (main_iter s lines gui).1 = some s1 → s1.command ∈ valid_commands) := by
  refine ⟨by decide, ?_, ?_⟩
  · intro s u hs
    unfold handle_key_input_step
    generalize pyLower (pyStrip u) = v
    by_cases hq : v = "q"
    · simp [hq, valid_commands]
    · by_cases hd : v ∈ drive_commands
      · have : v ∈ valid_commands := by fin_cases hd <;> decide
        simp only [if_neg hq, if_pos hd]
        exact this
      · by_cases hp : v = "p"
        · simpa [if_neg hq, if_neg hd, if_pos hp] using hs
        · simpa [if_neg hq, if_neg hd, if_neg hp] using hs
  · intro s lines gui s1 hs h
    unfold main_iter at h
    rcases hcp : consume_pending s with ⟨o, w⟩
    rw [hcp] at h
    cases o with
    | none => simp at h
    | some s2 =>
      have h2 : s2.command = s.command := by
        unfold consume_pending at hcp
        split_ifs at hcp <;> simp_all <;> rw [← hcp.1]
      have hs2 : s2.command ∈ valid_commands := h2 ▸ hs
      by_cases hp : s2.paused <;> simp only [hp, if_pos, if_neg, Bool.false_eq_true,
        if_false, if_true] at h
      · rw [(Option.some_inj.mp h : s2 = s1)] at hs2
        exact hs2
      · cases gui <;> simp at h
        rw [(h : s2 = s1)] at hs2
        exact hs2

/-- Claim C2: the mode is flipped by the toggle input `'p'` and by nothing
else — any other listener input and any main-loop iteration leave `paused`
unchanged — the flip is an involution on the mode, and starting from the
initial Autonomous state, `n` toggles leave Autonomous for even `n` and
ManualPaused for odd `n`. -/
theorem mode_toggle_alternates :
    (∀ s : SysState, (toggle_step s).paused = !s.paused) ∧
    (∀ s : SysState, (toggle_step (toggle_step s)).paused = s.paused) ∧
    (∀ s u, pyLower (pyStrip u) ≠ "p" →
      (handle_key_input_step s u).1.paused = s.paused) ∧
    (∀ s lines gui s1, (main_iter s lines gui).1 = some s1 →
      s1.paused = s.paused) ∧
    (∀ n : ℕ, (toggle_step^[n] initState).paused = decide (n % 2 = 1)) := by
  have hflip : ∀ s : SysState, (toggle_step s).paused = !s.paused := fun s => rfl
  have hmain : ∀ s lines gui s1, (main_iter s lines gui).1 = some s1 →
      s1.paused = s.paused := by
    intro s lines gui s1 h
    unfold main_iter at h
    rcases hcp : consume_pending s with ⟨o, w⟩
    rw [hcp] at h
    cases o with
    | none => simp at h
    | some s2 =>
      have h2 : s2.paused = s.paused :=
        consume_pending_preserves_paused s s2 (by rw [hcp])
      by_cases hp : s2.paused <;> simp only [hp, Bool.false_eq_true,
        if_false, if_true] at h
      · rw [← (Option.some_inj.mp h : s2 = s1)]
        exact h2
      · cases gui <;> simp at h
        rw [← (h : s2 = s1)]
        exact h2
  refine ⟨hflip, fun s => by rw [hflip, hflip, Bool.not_not], ?_, hmain, ?_⟩
  · intro s u hu
    unfold handle_key_input_step
    generalize hv : pyLower (pyStrip u) = v
    rw [hv] at hu
    by_cases hq : v = "q"
    · simp [hq]
    · by_cases hd : v ∈ drive_commands
      · simp [if_neg hq, if_pos hd]
      · simp [if_neg hq, if_neg hd, if_neg hu]
  · intro n
    induction n with
    | zero => decide
    | succ k ih =>
      rw [Function.iterate_succ_apply', hflip, ih]
      rcases Nat.mod_two_eq_zero_or_one k with hk | hk <;>
        simp [Nat.add_mod, hk]

/-- Witness for C2 at the inputs `'w'` (a non-toggle), a concrete
iteration, and five toggles. -/
theorem mode_toggle_alternates_witness :
    (handle_key_input_step initState "w").1.paused = initState.paused ∧
    (toggle_step^[5] initState).paused = decide (5 % 2 = 1) :=
  ⟨mode_toggle_alternates.2.2.1 initState "w" (by decide),
    mode_toggle_alternates.2.2.2.2 5⟩

/-- Claim C9: a pending `'q'` breaks the main loop whatever the mode
(`paused` is not inspected before the break and nothing is written), and
every program run — however its loop ends: operator quit, GUI quit, or the
schedule cut short by an interrupt — performs each teardown action
(`picam2.stop`, `picam2.close`, `ser.close`) exactly once, after the loop. -/
theorem quit_breaks_and_cleanup_runs_once :
    (∀ (s : SysState) lines gui, s.key_input_flag = true → s.command = "q" →
      main_iter s lines gui = (none, [])) ∧
    (∀ steps : List Step,
      (programTrace steps).count Act.camStop = 1 ∧
      (programTrace steps).count Act.camClose = 1 ∧
      (programTrace steps).count Act.serClose = 1) := by
  constructor
  · intro s lines gui h1 h2
    unfold main_iter consume_pending
    rw [h1, h2]
    simp
  · intro steps
    have hmap : ∀ (a : Act) (ws : List String), (∀ b, a ≠ Act.write b) →
        (ws.map Act.write).count a = 0 := by
      intro a ws ha
      refine List.count_eq_zero.mpr ?_
      simp only [List.mem_map]
      rintro ⟨b, -, hb⟩
      exact ha b hb.symm
    unfold programTrace
    rw [List.count_append, List.count_append, List.count_append,
      hmap _ _ (by intro b h; cases h), hmap _ _ (by intro b h; cases h),
      hmap _ _ (by intro b h; cases h)]
    refine ⟨?_, ?_, ?_⟩ <;> decide

/-- Witness for C9: quitting from ManualPaused breaks the loop, and the
empty run (immediate interrupt) still tears down exactly once. -/
theorem quit_breaks_and_cleanup_runs_once_witness :
    main_iter ⟨true, "q", true⟩ none false = (none, []) ∧
    (programTrace []).count Act.serClose = 1 :=
  ⟨quit_breaks_and_cleanup_runs_once.1 ⟨true, "q", true⟩ none false rfl rfl,
    (quit_breaks_and_cleanup_runs_once.2 []).2.2⟩

/-- `arctan2` takes values in `(-π, π]`. -/
theorem arctan2_bounds (y x : ℝ) : -π < arctan2 y x ∧ arctan2 y x ≤ π := by
  have hpi := pi_pos
  have h1 := arctan_lt_pi_div_two (y / x)
  have h2 := neg_pi_div_two_lt_arctan (y / x)
  unfold arctan2
  split_ifs with hx hx2 hy hy2 hy3
  · constructor <;> linarith
  · have hyx : y / x ≤ 0 := div_nonpos_iff.mpr (Or.inl ⟨hy, hx2.le⟩)
    have harc : arctan (y / x) ≤ 0 := by
      have := arctan_strictMono.monotone hyx
      rwa [arctan_zero] at this
    constructor <;> linarith
  · have hy' : y < 0 := lt_of_not_ge hy
    have hyx : 0 < y / x := div_pos_of_neg_of_neg hy' hx2
    have harc : 0 < arctan (y / x) := by
      have := arctan_strictMono hyx
      rwa [arctan_zero] at this
    constructor <;> linarith
  · constructor <;> linarith
  · constructor <;> linarith
  · constructor <;> linarith

/-- Each segment orientation lies in `(-π, π]`. -/
theorem segAngle_bounds (l : Seg) : -π < segAngle l ∧ segAngle l ≤ π :=
  arctan2_bounds _ _

/-- The accumulator loop of `calculate_angle` is summation. -/
theorem foldl_segAngle (ls : List Seg) (a : ℝ) :
    ls.foldl (fun acc l => acc + segAngle l) a = a + (ls.map segAngle).sum := by
  induction ls generalizing a with
  | nil => simp
  | cons h t ih => simp [ih, add_assoc]

/-- The orientation sum over a list is at most `length * π`. -/
theorem sum_segAngle_le (ls : List Seg) :
    (ls.map segAngle).sum ≤ (ls.length : ℝ) * π := by
  induction ls with
  | nil => simp
  | cons h t ih =>
    simp only [List.map_cons, List.sum_cons, List.length_cons]
    push_cast
    have := (segAngle_bounds h).2
    linarith

/-- The orientation sum over a list is at least `-(length * π)`. -/
theorem neg_le_sum_segAngle (ls : List Seg) :
    -((ls.length : ℝ) * π) ≤ (ls.map segAngle).sum := by
  induction ls with
  | nil => simp
  | cons h t ih =>
    simp only [List.map_cons, List.sum_cons, List.length_cons]
    push_cast
    have := (segAngle_bounds h).1
    linarith

/-- Evaluation of `calculate_angle` on a non-empty list: the fold is the
sum, so the result is the mean orientation in degrees. -/
theorem calculate_angle_some (t : List Seg) (ht : t ≠ []) :
    calculate_angle (some t) =
      (t.map segAngle).sum / (t.length : ℝ) * 180 / π := by
  show (if t.length = 0 then (0 : ℝ)
      else (t.foldl (fun acc l => acc + segAngle l) 0) /
        (t.length : ℝ) * 180 / π) = _
  rw [if_neg (by simpa using ht), foldl_segAngle, zero_add]

/-- Claim C6: on a non-empty segment list, `calculate_angle` returns the
unweighted arithmetic mean of the `arctan2` orientations converted to
degrees (`spec_mean_angle_deg`); a single segment `(0,0)-(10,10)` gives
`45` degrees and `(0,0)-(10,-10)` gives `-45` degrees. -/
theorem angle_is_mean_of_orientations (ls : List Seg) (h : ls ≠ []) :
    calculate_angle (some ls) = spec_mean_angle_deg ls ∧
    calculate_angle (some [⟨0, 0, 10, 10⟩]) = 45 ∧
    calculate_angle (some [⟨0, 0, 10, -10⟩]) = -45 := by
  have hmean : ∀ (t : List Seg), t ≠ [] →
      calculate_angle (some t) = spec_mean_angle_deg t := by
    intro t ht
    rw [calculate_angle_some t ht]
    rfl
  have h45 : segAngle ⟨0, 0, 10, 10⟩ = π / 4 := by
    unfold segAngle arctan2
    norm_num
  have hm45 : segAngle ⟨0, 0, 10, -10⟩ = -(π / 4) := by
    unfold segAngle arctan2
    norm_num
  have hpi := pi_ne_zero
  refine ⟨hmean ls h, ?_, ?_⟩
  · rw [calculate_angle_some _ (by simp), List.map_singleton,
      List.sum_singleton, h45]
    field_simp
    ring
  · rw [calculate_angle_some _ (by simp), List.map_singleton,
      List.sum_singleton, hm45]
    field_simp
    ring

/-- Witness for C6 at the single segment `(0,0)-(10,10)`. -/
theorem angle_is_mean_of_orientations_witness :
    calculate_angle (some [⟨0, 0, 10, 10⟩]) =
      spec_mean_angle_deg [⟨0, 0, 10, 10⟩] ∧
    calculate_angle (some [⟨0, 0, 10, 10⟩]) = 45 :=
  ⟨(angle_is_mean_of_orientations [⟨0, 0, 10, 10⟩] (by simp)).1,
    (angle_is_mean_of_orientations [⟨0, 0, 10, 10⟩] (by simp)).2.1⟩

/-- Counterexample to claim C7: the segment `(10,0)-(0,10)` (both
coordinate differences give `arctan2 10 (-10)`) yields `135` degrees,
outside the claimed interval `(-90, 90]`. -/
theorem angle_range_counterexample :
    calculate_angle (some [⟨10, 0, 0, 10⟩]) = 135 ∧
    ¬ (-90 < calculate_angle (some [⟨10, 0, 0, 10⟩]) ∧
        calculate_angle (some [⟨10, 0, 0, 10⟩]) ≤ 90) := by
  have hseg : segAngle ⟨10, 0, 0, 10⟩ = 3 * π / 4 := by
    unfold segAngle arctan2
    norm_num
    ring
  have h135 : calculate_angle (some [⟨10, 0, 0, 10⟩]) = 135 := by
    rw [calculate_angle_some _ (by simp), List.map_singleton,
      List.sum_singleton, hseg]
    have hpi := pi_ne_zero
    field_simp
    ring
  exact ⟨h135, by rw [h135]; norm_num⟩

/-- Claim C7 as amended: for every input — `lines` absent, empty, or any
list of segments — `calculate_angle` lies in `(-180, 180]` degrees (the
`arctan2` orientations lie in `(-π, π]`, and so does their mean). -/
theorem angle_always_in_range (lines : Option (List Seg)) :
    -180 < calculate_angle lines ∧ calculate_angle lines ≤ 180 := by
  have hpi := pi_pos
  have key : ∀ (a : Seg) (t : List Seg),
      -180 < calculate_angle (some (a :: t)) ∧
        calculate_angle (some (a :: t)) ≤ 180 := by
    intro a t
    have hceq : calculate_angle (some (a :: t)) =
        ((a :: t).map segAngle).sum / (((a :: t).length : ℕ) : ℝ) * 180 / π :=
      calculate_angle_some (a :: t) (by simp)
    set S := ((a :: t).map segAngle).sum with hS
    set n : ℝ := (((a :: t).length : ℕ) : ℝ) with hn
    have hnpos : (0 : ℝ) < n := by
      rw [hn]
      simp only [List.length_cons]
      exact_mod_cast t.length.succ_pos
    have hub : S ≤ n * π := sum_segAngle_le (a :: t)
    have hlb : -(n * π) < S := by
      have h1 := (segAngle_bounds a).1
      have h2 := neg_le_sum_segAngle t
      have hlen : n = (t.length : ℝ) + 1 := by
        rw [hn]
        simp only [List.length_cons]
        push_cast
        ring
      have hScons : S = segAngle a + (t.map segAngle).sum := by
        rw [hS]
        simp
      rw [hlen, hScons]
      linarith
    have hA : (0 : ℝ) < n * π := mul_pos hnpos hpi
    constructor
    · rw [hceq, div_mul_eq_mul_div, div_div, lt_div_iff₀ hA]
      linarith
    · rw [hceq, div_mul_eq_mul_div, div_div, div_le_iff₀ hA]
      linarith
  rcases lines with - | ls
  · constructor <;> norm_num [calculate_angle]
  · rcases ls with - | ⟨a, t⟩
    · constructor <;> norm_num [calculate_angle]
    · exact key a t

/-- Witness for the amended C7 at a concrete segment list. -/
theorem angle_always_in_range_witness :
    -180 < calculate_angle (some [⟨10, 0, 0, 10⟩]) ∧
      calculate_angle (some [⟨10, 0, 0, 10⟩]) ≤ 180 :=
  angle_always_in_range (some [⟨10, 0, 0, 10⟩])

/-- Witness for C8 at the concrete angles `37.9` and `-37.9`. -/
theorem send_angle_truncates_toward_zero_witness :
    pyInt (37.9 : ℝ) = spec_trunc_toward_zero (37.9 : ℝ) ∧
    send_angle_to_arduino (37.9 : ℝ) = "A37\n" :=
  ⟨(send_angle_truncates_toward_zero.1 (37.9 : ℝ)).1,
    send_angle_truncates_toward_zero.2⟩

end LaneDetect

